import Mathlib

/-!
Menu synchronisation engine of openlinkhub-tray.

A shallow embedding of `src/systray/systray.go` (the menu store, the battery
reconciler and the dbusmenu methods) together with the part of
`src/common/common.go` that describes a backend snapshot.

* `int32` identifiers are `Int`; the only `int32` arithmetic of the program,
  `index++` in `SyncBatteryToMenu`, wraps through `wrapInt32`.
* `menuRevision` is a `uint32`: a `Nat` incremented modulo `2^32`.
* `map[int32]MenuLayout` is a function `Int → Option MenuLayout`
  (lookup, assignment, `delete`).
* `map[string]dbus.Variant` literals are association lists.
* The global variables `menuItems`, `menuOrder`, `menuRevision` are the fields
  of `Store`, passed explicitly. Each function that takes `menuMutex` is one
  atomic state transformer.
-/

namespace Systray

/-! ## Data model -/

/-- The `dbus.Variant` payloads that the menu code builds with `dbus.MakeVariant`. -/
inductive Variant where
  | str (s : String)
  | bool (b : Bool)
  deriving DecidableEq, Repr

/-- A `map[string]dbus.Variant` literal, as the list of its entries. -/
abbrev PropMap := List (String × Variant)

/-- Lookup `props[name]` with the comma-ok result. -/
def PropMap.get (props : PropMap) (name : String) : Option Variant :=
  (props.find? (fun e => e.1 == name)).map Prod.snd

/-- The struct `MenuLayout` (`ID`, `Props`, `Children`). -/
structure MenuLayout where
  ID : Int
  Props : PropMap
  Children : List Variant
  deriving DecidableEq, Repr

/-- The zero value of `MenuLayout`, which a Go map lookup yields for a missing key. -/
def MenuLayout.zero : MenuLayout := ⟨0, [], []⟩

/-- The layout that `GetLayout` returns: root `ID`, root `Props`, and the children,
each child standing for `dbus.MakeVariant(menuItems[id])`. -/
structure RootLayout where
  ID : Int
  Props : PropMap
  Children : List MenuLayout
  deriving DecidableEq, Repr

/-- The Go map `map[int32]MenuLayout`. -/
abbrev ItemMap := Int → Option MenuLayout

/-- The map literal `map[int32]MenuLayout{}`. -/
def ItemMap.empty : ItemMap := fun _ => none

/-- Assignment `m[k] = v`. -/
def ItemMap.set (m : ItemMap) (k : Int) (v : MenuLayout) : ItemMap :=
  fun j => if j = k then some v else m j

/-- The builtin `delete(m, k)`. -/
def ItemMap.delete (m : ItemMap) (k : Int) : ItemMap :=
  fun j => if j = k then none else m j

/-- The package variables `menuItems`, `menuOrder`, `menuRevision`. -/
structure Store where
  menuItems : ItemMap
  menuOrder : List Int
  menuRevision : Nat

/-- The values the package variables are initialised with:
`map[int32]MenuLayout{}`, a nil slice, and `uint32 = 1`. -/
def initStore : Store := ⟨ItemMap.empty, [], 1⟩

/-- The `uint32` increment `menuRevision++`. -/
def incrUint32 (r : Nat) : Nat := (r + 1) % 4294967296

/-- Two-complement wrap of an integer into the `int32` range. -/
def wrapInt32 (x : Int) : Int := (x + 2147483648) % 4294967296 - 2147483648

/-- The struct `common.BatteryDetails`. -/
structure BatteryDetails where
  Device : String
  Level : Int
  DeviceType : Int
  deriving DecidableEq, Repr

/-- The struct `common.Data`; `Battery` lists the entries of the Go map in the
order in which the `range` loop of `SyncBatteryToMenu` yields them. -/
structure Data where
  CpuTemp : String
  GpuTemp : String
  Battery : List (String × BatteryDetails)

/-- The struct `common.Response`. -/
structure Response where
  Code : Int
  Status : Int
  Data : Data

/-- The devices of a snapshot in iteration order. -/
def Response.devices (r : Response) : List BatteryDetails :=
  r.Data.Battery.map Prod.snd

/-! ## Menu store operations -/

/-- The function `addMenuItem`. -/
def addMenuItem (s : Store) (id : Int) (props : PropMap) : Store :=
  { menuItems := s.menuItems.set id ⟨id, props, []⟩
    menuOrder := if (s.menuItems id).isSome then s.menuOrder else s.menuOrder ++ [id]
    menuRevision := incrUint32 s.menuRevision }

/-- The position loop of `addAfterHeader`: `pos` stays `0` unless some entry
equals `insertAfter`, in which case it is the index of the first such entry plus
one (`i` is the index of the head of the remaining slice). -/
def findPos (insertAfter : Int) : List Int → Nat → Nat
  | [], _ => 0
  | v :: rest, i => if v = insertAfter then i + 1 else findPos insertAfter rest (i + 1)

/-- The function `addAfterHeader`. -/
def addAfterHeader (s : Store) (id : Int) (props : PropMap) : Store :=
  let pos := findPos 2 s.menuOrder 0
  { menuItems := s.menuItems.set id ⟨id, props, []⟩
    menuOrder := s.menuOrder.take pos ++ ([id] ++ s.menuOrder.drop pos)
    menuRevision := incrUint32 s.menuRevision }

/-- The function `iconForType`. -/
def iconForType (deviceType : Int) : String :=
  if deviceType = 2 then "audio-headset"
  else if deviceType = 1 then "input-mouse"
  else if deviceType = 0 then "input-keyboard"
  else "battery-good"

/-- One iteration of the loop of `clearBatteryItems` on the pair
(`menuItems`, `newOrder`). -/
def clearStep (acc : ItemMap × List Int) (id : Int) : ItemMap × List Int :=
  if id < 1000 then (acc.1, acc.2 ++ [id]) else (acc.1.delete id, acc.2)

/-- The function `clearBatteryItems`. -/
def clearBatteryItems (s : Store) : Store :=
  let r := s.menuOrder.foldl clearStep (s.menuItems, [])
  { menuItems := r.1
    menuOrder := r.2
    menuRevision := incrUint32 s.menuRevision }

/-- The label `fmt.Sprintf("[%d %%] %s", info.Level, info.Device)`. -/
def batteryLabel (info : BatteryDetails) : String :=
  "[" ++ toString info.Level ++ " %] " ++ info.Device

/-- The property map that `SyncBatteryToMenu` builds for one device. -/
def batteryProps (info : BatteryDetails) : PropMap :=
  [("label", .str (batteryLabel info)),
   ("icon-name", .str (iconForType info.DeviceType)),
   ("type", .str "normal")]

/-- The `range` loop of `SyncBatteryToMenu`, started at `index`. -/
def syncLoop : List BatteryDetails → Int → Store → Store
  | [], _, s => s
  | info :: rest, index, s =>
      syncLoop rest (wrapInt32 (index + 1)) (addAfterHeader s index (batteryProps info))

/-- The function `SyncBatteryToMenu`, as a transformer of the store. The final
`emitMenuUpdate` only reads `menuRevision` and sends a bus signal. -/
def SyncBatteryToMenu (s : Store) (response : Response) : Store :=
  syncLoop response.devices 1000 (clearBatteryItems s)

/-! ## dbusmenu methods -/

/-- A `*dbus.Error`; `none` of `Option DbusError` is the nil error. -/
structure DbusError where
  msg : String
  deriving DecidableEq, Repr

/-- The method `MenuServer.AboutToShow`: the `bool` result and the error. -/
def AboutToShow (_parentId : Int) : Bool × Option DbusError := (true, none)

/-- The method `MenuServer.GetLayout`: the store it leaves, the revision, the
layout and the error. -/
def GetLayout (s : Store) (_parentId _recursionDepth : Int) (_propNames : List String) :
    Store × Nat × RootLayout × Option DbusError :=
  (s, s.menuRevision,
    ⟨0, [], s.menuOrder.map (fun id => (s.menuItems id).getD MenuLayout.zero)⟩, none)

/-- What `MenuServer.Event` does to the world outside the store. -/
inductive Effect where
  | startXdgOpen (url : String)
  | printLine (text : String)
  | osExit (code : Int)
  deriving DecidableEq, Repr

/-- The outcome of one `MenuServer.Event` call: the store it leaves, its effects in
order, and the error it returns; `returned = none` means that the call did not
return because `os.Exit` ended the process. -/
structure EventResult where
  store : Store
  effects : List Effect
  returned : Option (Option DbusError)

/-- The method `MenuServer.Event`. `backendAddr` is `common.BackendAddr`, and
`startErr` is the error of `exec.Command("xdg-open", url).Start()`, if any. -/
def Event (backendAddr : String) (startErr : Option String) (s : Store) (id : Int)
    (_eventId : String) (_data : Variant) (_timestamp : Nat) : EventResult :=
  if id = 101 then
    { store := s
      effects := Effect.startXdgOpen ("http://" ++ backendAddr) ::
        (match startErr with
          | some e => [Effect.printLine ("Failed to open browser: " ++ e)]
          | none => [])
      returned := some none }
  else if id = 103 then
    { store := s, effects := [Effect.osExit 0], returned := none }
  else
    { store := s, effects := [], returned := some none }

/-! ## Program runs -/

/-- The static items of `Init`, in call order. -/
def staticItems : List (Int × PropMap) :=
  [(1, [("label", .str "Battery Status"), ("enabled", .bool false),
        ("type", .str "normal"), ("icon-name", .str "battery-good")]),
   (2, [("type", .str "separator")]),
   (100, [("type", .str "separator")]),
   (101, [("label", .str "Open Dashboard"), ("icon-name", .str "applications-internet")]),
   (102, [("type", .str "separator")]),
   (103, [("label", .str "Quit"), ("icon-name", .str "application-exit")])]

/-- A run of `addMenuItem` calls. -/
def addAll (items : List (Int × PropMap)) (s : Store) : Store :=
  items.foldl (fun acc it => addMenuItem acc it.1 it.2) s

/-- The store after the static part of `Init`. -/
def startupStore : Store := addAll staticItems initStore

/-- The stores between the `addMenuItem` calls of `Init`, first to last. -/
def startupTrace : List Store :=
  (List.range (staticItems.length + 1)).map (fun k => addAll (staticItems.take k) initStore)

/-- The stores after each `addAfterHeader` call of the loop of `SyncBatteryToMenu`. -/
def syncLoopTrace : List BatteryDetails → Int → Store → List Store
  | [], _, _ => []
  | info :: rest, index, s =>
      addAfterHeader s index (batteryProps info) ::
        syncLoopTrace rest (wrapInt32 (index + 1)) (addAfterHeader s index (batteryProps info))

/-- Every store that exists between two lock-protected steps of one
`SyncBatteryToMenu` call: before it, after `clearBatteryItems`, and after each
`addAfterHeader`. These are the stores a concurrent `GetLayout` can read. -/
def syncTrace (s : Store) (response : Response) : List Store :=
  s :: clearBatteryItems s :: syncLoopTrace response.devices 1000 (clearBatteryItems s)

/-- The stores at which no `SyncBatteryToMenu` is in progress: after `Init`, and
after each completed call (`controller.processMenu` runs them one at a time). -/
inductive Idle : Store → Prop where
  | started : Idle startupStore
  | synced (s : Store) (response : Response) :
      Idle s → response.devices.length < 2147483648 - 1000 →
      Idle (SyncBatteryToMenu s response)

/-- The stores the program passes through. -/
inductive Reachable : Store → Prop where
  | booting (t : Store) : t ∈ startupTrace → Reachable t
  | syncing (s : Store) (response : Response) (t : Store) :
      Idle s → response.devices.length < 2147483648 - 1000 →
      t ∈ syncTrace s response → Reachable t

/-- Consistency of the tree: no identifier twice in `menuOrder`, the identifiers of
`menuOrder` are the keys of `menuItems`, and each item carries its key as `ID`. -/
def Consistent (s : Store) : Prop :=
  s.menuOrder.Nodup ∧
  (∀ k, k ∈ s.menuOrder ↔ (s.menuItems k).isSome = true) ∧
  (∀ k item, s.menuItems k = some item → item.ID = k)

/-- The dynamic region as `GetLayout` presents it: the items whose identifier in
`menuOrder` is at least `1000`, in order. -/
def dynamicRegion (s : Store) : List MenuLayout :=
  (s.menuOrder.filter (fun id => decide (1000 ≤ id))).map
    (fun id => (s.menuItems id).getD MenuLayout.zero)

/-- The menu items for a run of devices numbered from `index` upwards, first device
first. -/
def freshItems : List BatteryDetails → Int → List MenuLayout
  | [], _ => []
  | info :: rest, index => ⟨index, batteryProps info, []⟩ :: freshItems rest (index + 1)

/-- The position that the description of `addAfterHeader` names: one past the first
occurrence of the anchor `2`, or `0` when `2` does not occur. -/
def anchorPos (o : List Int) : Nat :=
  if (2 : Int) ∈ o then o.indexOf 2 + 1 else 0

/-- A two-device snapshot for the second scenario. -/
def twoDevices (k1 k2 n1 n2 : String) : Response :=
  ⟨200, 1, ⟨"", "", [(k1, ⟨n1, 80, 1⟩), (k2, ⟨n2, 45, 2⟩)]⟩⟩

/-- A snapshot without battery devices. -/
def noDevices : Response := ⟨200, 1, ⟨"", "", []⟩⟩

/-- A store whose revision is the largest `uint32`. -/
def lastRevisionStore : Store := ⟨ItemMap.empty, [], 4294967295⟩

/-- The calls that may act on the store. -/
inductive Op where
  | addMenuItem (id : Int) (props : PropMap)
  | addAfterHeader (id : Int) (props : PropMap)
  | clearBatteryItems
  | getLayout (parentId recursionDepth : Int) (propNames : List String)
  | event (backendAddr : String) (startErr : Option String) (id : Int) (eventId : String)
      (data : Variant) (timestamp : Nat)

/-- Whether the call is one of the three mutators. -/
def Op.isMutating : Op → Bool
  | .addMenuItem _ _ => true
  | .addAfterHeader _ _ => true
  | .clearBatteryItems => true
  | .getLayout _ _ _ => false
  | .event _ _ _ _ _ _ => false

/-- The store after one call. -/
def Op.apply (s : Store) : Op → Store
  | .addMenuItem id props => Systray.addMenuItem s id props
  | .addAfterHeader id props => Systray.addAfterHeader s id props
  | .clearBatteryItems => Systray.clearBatteryItems s
  | .getLayout p d names => (GetLayout s p d names).1
  | .event addr err id ev data ts => (Event addr err s id ev data ts).store

/-- The store after a sequence of calls. -/
def runOps (s : Store) (ops : List Op) : Store := ops.foldl Op.apply s

/-- The number of mutating calls in a sequence. -/
def mutations (ops : List Op) : Nat := (ops.filter Op.isMutating).length

/-! ## Auxiliary facts -/

theorem findPos_of_not_mem (a : Int) (l : List Int) (i : Nat) (h : a ∉ l) :
    findPos a l i = 0 := by
  induction l generalizing i with
  | nil => rfl
  | cons v t ih =>
    have hv : v ≠ a := fun e => h (by simp [e])
    have ht : a ∉ t := fun e => h (by simp [e])
    simp [findPos, hv, ih _ ht]

theorem findPos_of_mem (a : Int) (l : List Int) (i : Nat) (h : a ∈ l) :
    findPos a l i = i + l.indexOf a + 1 := by
  induction l generalizing i with
  | nil => simp at h
  | cons v t ih =>
    by_cases hv : v = a
    · subst hv
      simp [findPos]
    · have ht : a ∈ t := by
        rcases List.mem_cons.mp h with e | e
        · exact absurd e.symm hv
        · exact e
      simp only [findPos, hv, if_false]
      rw [ih _ ht, List.indexOf_cons_ne _ hv]
      omega

theorem findPos_eq_anchorPos (o : List Int) : findPos 2 o 0 = anchorPos o := by
  unfold anchorPos
  by_cases h : (2 : Int) ∈ o
  · simp [h, findPos_of_mem 2 o 0 h]
  · simp [h, findPos_of_not_mem 2 o 0 h]
theorem indexOf_insert_after (a : Int) (l : List Int) (x : List Int) (h : a ∈ l) :
    (l.take (l.indexOf a + 1) ++ x).indexOf a = l.indexOf a := by
  induction l with
  | nil => simp at h
  | cons v t ih =>
    by_cases hv : v = a
    · subst hv
      simp
    · have ht : a ∈ t := by
        rcases List.mem_cons.mp h with e | e
        · exact absurd e.symm hv
        · exact e
      rw [List.indexOf_cons_ne _ hv, List.take_succ_cons, List.cons_append,
        List.indexOf_cons_ne _ hv, ih ht]

theorem mem_insert_after (a : Int) (l : List Int) (x : List Int) (h : a ∈ l) :
    a ∈ l.take (l.indexOf a + 1) ++ x := by
  induction l with
  | nil => simp at h
  | cons v t ih =>
    by_cases hv : v = a
    · subst hv
      simp
    · have ht : a ∈ t := by
        rcases List.mem_cons.mp h with e | e
        · exact absurd e.symm hv
        · exact e
      rw [List.indexOf_cons_ne _ hv, List.take_succ_cons, List.cons_append]
      exact List.mem_cons_of_mem _ (ih ht)

theorem anchorPos_insert (o : List Int) (x : List Int) (h : (2 : Int) ∈ o) :
    anchorPos (o.take (anchorPos o) ++ x) = anchorPos o := by
  have hp : anchorPos o = o.indexOf 2 + 1 := by simp [anchorPos, h]
  rw [hp]
  simp only [anchorPos]
  rw [if_pos (mem_insert_after 2 o x h), indexOf_insert_after 2 o x h]

theorem take_anchorPos_insert (o : List Int) (x : List Int) :
    (o.take (anchorPos o) ++ x).take (anchorPos o) = o.take (anchorPos o) := by
  have hle : anchorPos o ≤ o.length := by
    unfold anchorPos
    split
    · rename_i h
      have := List.indexOf_lt_length.mpr h
      omega
    · omega
  rw [List.take_append_of_le_length (by simp [hle])]
  simp [List.take_take]

theorem drop_anchorPos_insert (o : List Int) (x : List Int) :
    (o.take (anchorPos o) ++ x).drop (anchorPos o) = x := by
  have hle : anchorPos o ≤ o.length := by
    unfold anchorPos
    split
    · rename_i h
      have := List.indexOf_lt_length.mpr h
      omega
    · omega
  have hl : (o.take (anchorPos o)).length = anchorPos o := by simp [hle]
  conv_lhs => rw [← hl]
  simp

theorem anchorPos_le_length (o : List Int) : anchorPos o ≤ o.length := by
  unfold anchorPos
  split
  · rename_i h
    have := List.indexOf_lt_length.mpr h
    omega
  · omega


theorem splice_length (l : List Int) (p : Nat) (x : Int) :
    (l.take p ++ ([x] ++ l.drop p)).length = l.length + 1 := by
  have h := congrArg List.length (List.take_append_drop p l)
  simp only [List.length_append, List.length_singleton] at h ⊢
  omega

theorem splice_eraseIdx (l : List Int) (p : Nat) (x : Int) (hp : p ≤ l.length) :
    (l.take p ++ ([x] ++ l.drop p)).eraseIdx p = l := by
  have hl : (l.take p).length = p := by simp [hp]
  rw [List.eraseIdx_append_of_length_le (by omega)]
  simp [hl]

theorem splice_getElem_at (l : List Int) (p : Nat) (x : Int) (hp : p ≤ l.length) :
    (l.take p ++ ([x] ++ l.drop p))[p]? = some x := by
  have hl : (l.take p).length = p := by simp [hp]
  rw [List.getElem?_append_right (by omega)]
  simp [hl]

theorem splice_getElem_before (l : List Int) (p j : Nat) (x : Int) (hp : p ≤ l.length)
    (hj : j < p) : (l.take p ++ ([x] ++ l.drop p))[j]? = l[j]? := by
  have hl : (l.take p).length = p := by simp [hp]
  rw [List.getElem?_append_left (by omega)]
  simp [List.getElem?_take, hj]

theorem getElem_indexOf (a : Int) (l : List Int) (h : a ∈ l) :
    l[l.indexOf a]? = some a := by
  induction l with
  | nil => simp at h
  | cons v t ih =>
    by_cases hv : v = a
    · subst hv
      simp
    · have ht : a ∈ t := by
        rcases List.mem_cons.mp h with e | e
        · exact absurd e.symm hv
        · exact e
      rw [List.indexOf_cons_ne _ hv]
      simpa using ih ht

theorem getElem_before_indexOf (a : Int) (l : List Int) (j : Nat) (hj : j < l.indexOf a) :
    l[j]? ≠ some a := by
  induction l generalizing j with
  | nil => simp
  | cons v t ih =>
    by_cases hv : v = a
    · subst hv
      simp at hj
    · rw [List.indexOf_cons_ne _ hv] at hj
      cases j with
      | zero => simpa using hv
      | succ k => simpa using ih k (by omega)

theorem addAfterHeader_menuOrder (t : Store) (i : Int) (q : PropMap) :
    (addAfterHeader t i q).menuOrder =
      t.menuOrder.take (anchorPos t.menuOrder) ++
        ([i] ++ t.menuOrder.drop (anchorPos t.menuOrder)) := by
  simp [addAfterHeader, findPos_eq_anchorPos]


theorem foldl_clearStep (l : List Int) (m : ItemMap) (acc : List Int) :
    l.foldl clearStep (m, acc) =
      ((fun k => if k ∈ l ∧ 1000 ≤ k then none else m k),
        acc ++ l.filter (fun id => decide (id < 1000))) := by
  induction l generalizing m acc with
  | nil => simp
  | cons v t ih =>
    rw [List.foldl_cons]
    by_cases hv : v < 1000
    · have hstep : clearStep (m, acc) v = (m, acc ++ [v]) := by simp [clearStep, hv]
      rw [hstep, ih]
      refine Prod.ext ?_ ?_
      · funext k
        by_cases hk : k = v
        · subst hk
          have : ¬ (1000 : Int) ≤ k := by omega
          simp [this]
        · simp [hk]
      · simp [List.filter_cons, hv]
    · have hstep : clearStep (m, acc) v = (m.delete v, acc) := by simp [clearStep, hv]
      rw [hstep, ih]
      refine Prod.ext ?_ ?_
      · funext k
        by_cases hk : k = v
        · subst hk
          have : (1000 : Int) ≤ k := by omega
          simp [this, ItemMap.delete]
        · simp [hk, ItemMap.delete]
      · simp [List.filter_cons, hv]

theorem clearBatteryItems_menuOrder (s : Store) :
    (clearBatteryItems s).menuOrder = s.menuOrder.filter (fun id => decide (id < 1000)) := by
  simp [clearBatteryItems, foldl_clearStep]

theorem clearBatteryItems_menuItems (s : Store) (k : Int) :
    (clearBatteryItems s).menuItems k =
      if k ∈ s.menuOrder ∧ 1000 ≤ k then none else s.menuItems k := by
  simp [clearBatteryItems, foldl_clearStep]

theorem consistent_initStore : Consistent initStore := by
  refine ⟨List.nodup_nil, ?_, ?_⟩
  · intro k
    simp [initStore, ItemMap.empty]
  · intro k item h
    simp [initStore, ItemMap.empty] at h

theorem consistent_addMenuItem (s : Store) (id : Int) (props : PropMap)
    (h : Consistent s) : Consistent (addMenuItem s id props) := by
  obtain ⟨hnd, hkeys, hid⟩ := h
  by_cases hex : (s.menuItems id).isSome = true
  · have hmem : id ∈ s.menuOrder := (hkeys id).mpr hex
    refine ⟨?_, ?_, ?_⟩
    · simpa [addMenuItem, hex] using hnd
    · intro k
      by_cases hk : k = id
      · subst hk
        simp [addMenuItem, hex, ItemMap.set, hmem]
      · simp [addMenuItem, hex, ItemMap.set, hk, hkeys k]
    · intro k item hit
      by_cases hk : k = id
      · subst hk
        simp [addMenuItem, ItemMap.set] at hit
        rw [← hit]
      · simp [addMenuItem, ItemMap.set, hk] at hit
        exact hid k item hit
  · have hmem : id ∉ s.menuOrder := fun hm => hex ((hkeys id).mp hm)
    refine ⟨?_, ?_, ?_⟩
    · simp only [addMenuItem, hex]
      simp only [Bool.false_eq_true, if_false]
      exact List.Nodup.append hnd (List.nodup_singleton id) (by simpa using hmem)
    · intro k
      by_cases hk : k = id
      · subst hk
        simp [addMenuItem, hex, ItemMap.set]
      · simp [addMenuItem, hex, ItemMap.set, hk, hkeys k]
    · intro k item hit
      by_cases hk : k = id
      · subst hk
        simp [addMenuItem, ItemMap.set] at hit
        rw [← hit]
      · simp [addMenuItem, ItemMap.set, hk] at hit
        exact hid k item hit

theorem consistent_clearBatteryItems (s : Store) (h : Consistent s) :
    Consistent (clearBatteryItems s) := by
  obtain ⟨hnd, hkeys, hid⟩ := h
  refine ⟨?_, ?_, ?_⟩
  · rw [clearBatteryItems_menuOrder]
    exact hnd.filter _
  · intro k
    rw [clearBatteryItems_menuOrder, clearBatteryItems_menuItems]
    by_cases hk : k < 1000
    · have : ¬ (1000 : Int) ≤ k := by omega
      simp [hk, this, hkeys k]
    · have : (1000 : Int) ≤ k := by omega
      by_cases hm : k ∈ s.menuOrder
      · simp [hk, this, hm]
      · have hn : ¬ (s.menuItems k).isSome = true := fun e => hm ((hkeys k).mpr e)
        simp [hk, hm, hn]
  · intro k item hit
    rw [clearBatteryItems_menuItems] at hit
    split at hit
    · simp at hit
    · exact hid k item hit

theorem consistent_addAfterHeader (s : Store) (id : Int) (props : PropMap)
    (h : Consistent s) (hnew : id ∉ s.menuOrder) : Consistent (addAfterHeader s id props) := by
  obtain ⟨hnd, hkeys, hid⟩ := h
  have hperm : (addAfterHeader s id props).menuOrder.Perm (id :: s.menuOrder) := by
    rw [addAfterHeader_menuOrder]
    have h1 : (s.menuOrder.take (anchorPos s.menuOrder) ++
        ([id] ++ s.menuOrder.drop (anchorPos s.menuOrder))).Perm
        (id :: (s.menuOrder.take (anchorPos s.menuOrder) ++
          s.menuOrder.drop (anchorPos s.menuOrder))) := List.perm_middle
    rwa [List.take_append_drop] at h1
  refine ⟨?_, ?_, ?_⟩
  · exact hperm.nodup_iff.mpr (List.nodup_cons.mpr ⟨hnew, hnd⟩)
  · intro k
    rw [hperm.mem_iff]
    by_cases hk : k = id
    · subst hk
      simp [addAfterHeader, ItemMap.set]
    · simp [addAfterHeader, ItemMap.set, hk, hkeys k]
  · intro k item hit
    by_cases hk : k = id
    · subst hk
      simp [addAfterHeader, ItemMap.set] at hit
      rw [← hit]
    · simp [addAfterHeader, ItemMap.set, hk] at hit
      exact hid k item hit

theorem wrapInt32_succ (idx : Int) (hlo : 1000 ≤ idx) (hhi : idx + 1 < 2147483648) :
    wrapInt32 (idx + 1) = idx + 1 := by
  unfold wrapInt32
  omega

theorem mem_addAfterHeader (s : Store) (id : Int) (props : PropMap) (x : Int) :
    x ∈ (addAfterHeader s id props).menuOrder ↔ x = id ∨ x ∈ s.menuOrder := by
  rw [addAfterHeader_menuOrder]
  have h := List.take_append_drop (anchorPos s.menuOrder) s.menuOrder
  constructor
  · intro hx
    simp only [List.mem_append, List.mem_singleton] at hx
    rcases hx with hx | hx | hx
    · exact Or.inr (List.mem_of_mem_take hx)
    · exact Or.inl hx
    · exact Or.inr (List.mem_of_mem_drop hx)
  · intro hx
    simp only [List.mem_append, List.mem_singleton]
    rcases hx with hx | hx
    · exact Or.inr (Or.inl hx)
    · rw [← h] at hx
      rcases List.mem_append.mp hx with hx | hx
      · exact Or.inl hx
      · exact Or.inr (Or.inr hx)

theorem consistent_syncLoopTrace (ds : List BatteryDetails) (idx : Int) (s : Store)
    (hc : Consistent s) (hlt : ∀ x ∈ s.menuOrder, x < idx) (hlo : 1000 ≤ idx)
    (hhi : idx + ds.length < 2147483648) :
    ∀ t ∈ syncLoopTrace ds idx s, Consistent t := by
  induction ds generalizing idx s with
  | nil => intro t ht; simp [syncLoopTrace] at ht
  | cons d r ih =>
    have hlen : ((d :: r).length : Int) = r.length + 1 := by simp
    have hnew : idx ∉ s.menuOrder := fun hm => absurd (hlt idx hm) (by omega)
    have hc1 := consistent_addAfterHeader s idx (batteryProps d) hc hnew
    have hw : wrapInt32 (idx + 1) = idx + 1 := wrapInt32_succ idx hlo (by omega)
    intro t ht
    simp only [syncLoopTrace, List.mem_cons] at ht
    rcases ht with ht | ht
    · rw [ht]; exact hc1
    · rw [hw] at ht
      refine ih (idx + 1) _ hc1 ?_ (by omega) (by omega) t ht
      intro x hx
      rcases (mem_addAfterHeader s idx _ x).mp hx with e | e
      · omega
      · have := hlt x e
        omega

theorem getLast_syncLoopTrace (ds : List BatteryDetails) (idx : Int) (s : Store) :
    (s :: syncLoopTrace ds idx s).getLast? = some (syncLoop ds idx s) := by
  induction ds generalizing idx s with
  | nil => simp [syncLoopTrace, syncLoop]
  | cons d r ih =>
    simp only [syncLoopTrace, syncLoop]
    rw [List.getLast?_cons_cons]
    exact ih _ _

theorem syncLoop_mem_trace (ds : List BatteryDetails) (idx : Int) (s : Store) :
    syncLoop ds idx s ∈ s :: syncLoopTrace ds idx s :=
  List.mem_of_getLast?_eq_some (getLast_syncLoopTrace ds idx s)

theorem clearBatteryItems_lt (s : Store) : ∀ x ∈ (clearBatteryItems s).menuOrder, x < 1000 := by
  intro x hx
  rw [clearBatteryItems_menuOrder] at hx
  simpa using (List.mem_filter.mp hx).2

theorem consistent_syncTrace (s : Store) (response : Response) (hc : Consistent s)
    (hn : response.devices.length < 2147483648 - 1000) :
    ∀ t ∈ syncTrace s response, Consistent t := by
  intro t ht
  simp only [syncTrace, List.mem_cons] at ht
  rcases ht with ht | ht | ht
  · rw [ht]; exact hc
  · rw [ht]; exact consistent_clearBatteryItems s hc
  · refine consistent_syncLoopTrace response.devices 1000 _
      (consistent_clearBatteryItems s hc) ?_ (by omega) (by omega) t ht
    intro x hx
    exact clearBatteryItems_lt s x hx

theorem SyncBatteryToMenu_mem_trace (s : Store) (response : Response) :
    SyncBatteryToMenu s response ∈ syncTrace s response := by
  unfold SyncBatteryToMenu syncTrace
  exact List.mem_cons_of_mem _ (syncLoop_mem_trace _ _ _)

theorem consistent_addAll (items : List (Int × PropMap)) (s : Store) (hc : Consistent s) :
    Consistent (addAll items s) := by
  induction items generalizing s with
  | nil => simpa [addAll] using hc
  | cons it rest ih =>
    simp only [addAll, List.foldl_cons]
    exact ih _ (consistent_addMenuItem s it.1 it.2 hc)

theorem consistent_idle (s : Store) (h : Idle s) : Consistent s := by
  induction h with
  | started => exact consistent_addAll _ _ consistent_initStore
  | synced s response _ hn ih =>
    exact consistent_syncTrace s response ih hn _ (SyncBatteryToMenu_mem_trace s response)

theorem consistent_reachable (t : Store) (h : Reachable t) : Consistent t := by
  cases h with
  | booting _ hm =>
    simp only [startupTrace, List.mem_map] at hm
    obtain ⟨k, _, hk⟩ := hm
    rw [← hk]
    exact consistent_addAll _ _ consistent_initStore
  | syncing s response _ hidle hn hm =>
    exact consistent_syncTrace s response (consistent_idle s hidle) hn t hm

theorem addAfterHeader_menuItems (s : Store) (id : Int) (props : PropMap) (k : Int) :
    (addAfterHeader s id props).menuItems k =
      if k = id then some ⟨id, props, []⟩ else s.menuItems k := by
  simp [addAfterHeader, ItemMap.set]

theorem syncLoop_menuItems_outside (ds : List BatteryDetails) (idx : Int) (s : Store)
    (hlo : 1000 ≤ idx) (hhi : idx + ds.length < 2147483648) (k : Int)
    (hk : k < idx ∨ idx + ds.length ≤ k) :
    (syncLoop ds idx s).menuItems k = s.menuItems k := by
  induction ds generalizing idx s with
  | nil => rfl
  | cons d r ih =>
    have hlen : ((d :: r).length : Int) = r.length + 1 := by simp
    have hw : wrapInt32 (idx + 1) = idx + 1 := wrapInt32_succ idx hlo (by omega)
    simp only [syncLoop]
    rw [hw, ih (idx + 1) _ (by omega) (by omega) (by omega), addAfterHeader_menuItems]
    have : k ≠ idx := by omega
    simp [this]

theorem syncLoop_menuItems_at (ds : List BatteryDetails) (idx : Int) (s : Store)
    (hlo : 1000 ≤ idx) (hhi : idx + ds.length < 2147483648) (i : Nat) (hi : i < ds.length) :
    (syncLoop ds idx s).menuItems (idx + i) = some ⟨idx + i, batteryProps ds[i], []⟩ := by
  induction ds generalizing idx s i with
  | nil => simp at hi
  | cons d r ih =>
    have hlen : ((d :: r).length : Int) = r.length + 1 := by simp
    have hw : wrapInt32 (idx + 1) = idx + 1 := wrapInt32_succ idx hlo (by omega)
    simp only [syncLoop]
    rw [hw]
    cases i with
    | zero =>
      rw [syncLoop_menuItems_outside r (idx + 1) _ (by omega) (by omega) _ (by omega),
        addAfterHeader_menuItems]
      simp
    | succ j =>
      have hj : j < r.length := by simpa using hi
      have e : idx + ((j + 1 : Nat) : Int) = (idx + 1) + (j : Int) := by push_cast; ring
      rw [e, ih (idx + 1) _ (by omega) (by omega) j hj]
      simp

theorem dynamicRegion_addAfterHeader (s : Store) (id : Int) (props : PropMap)
    (hid : 1000 ≤ id) (hnew : id ∉ s.menuOrder)
    (hhead : ∀ x ∈ s.menuOrder.take (anchorPos s.menuOrder), x < 1000) :
    dynamicRegion (addAfterHeader s id props) = ⟨id, props, []⟩ :: dynamicRegion s := by
  have hsplit := List.take_append_drop (anchorPos s.menuOrder) s.menuOrder
  have hf : (s.menuOrder.take (anchorPos s.menuOrder)).filter (fun x => decide (1000 ≤ x)) = [] := by
    rw [List.filter_eq_nil_iff]
    intro x hx
    have := hhead x hx
    simp only [decide_eq_true_eq]
    omega
  have hold : s.menuOrder.filter (fun x => decide (1000 ≤ x)) =
      (s.menuOrder.drop (anchorPos s.menuOrder)).filter (fun x => decide (1000 ≤ x)) := by
    conv_lhs => rw [← hsplit]
    rw [List.filter_append, hf, List.nil_append]
  unfold dynamicRegion
  rw [hold, addAfterHeader_menuOrder, List.filter_append, hf, List.nil_append,
    List.filter_append]
  have hone : [id].filter (fun x => decide (1000 ≤ x)) = [id] := by simp [hid]
  rw [hone, List.singleton_append, List.map_cons]
  congr 1
  · simp [addAfterHeader_menuItems]
  · apply List.map_congr_left
    intro x hx
    have hxo : x ∈ s.menuOrder := List.mem_of_mem_drop (List.mem_of_mem_filter hx)
    have hne : x ≠ id := fun e => hnew (e ▸ hxo)
    simp [addAfterHeader_menuItems, hne]

theorem head_addAfterHeader (s : Store) (id : Int) (props : PropMap) (hid : 1000 ≤ id)
    (hhead : ∀ x ∈ s.menuOrder.take (anchorPos s.menuOrder), x < 1000) :
    ∀ x ∈ (addAfterHeader s id props).menuOrder.take
      (anchorPos (addAfterHeader s id props).menuOrder), x < 1000 := by
  rw [addAfterHeader_menuOrder]
  by_cases h2 : (2 : Int) ∈ s.menuOrder
  · rw [anchorPos_insert _ _ h2, take_anchorPos_insert]
    exact hhead
  · have h0 : anchorPos s.menuOrder = 0 := by simp [anchorPos, h2]
    have hne : (2 : Int) ≠ id := by omega
    have h2n : (2 : Int) ∉ s.menuOrder.take 0 ++ ([id] ++ s.menuOrder.drop 0) := by
      simp [h2, hne]
    rw [h0]
    have h0n : anchorPos (s.menuOrder.take 0 ++ ([id] ++ s.menuOrder.drop 0)) = 0 := by
      simp only [anchorPos, if_neg h2n]
    rw [h0n]
    simp

theorem syncLoopTrace_dynamicRegion (ds : List BatteryDetails) (idx : Int) (s : Store)
    (hlo : 1000 ≤ idx) (hhi : idx + ds.length < 2147483648)
    (hlt : ∀ x ∈ s.menuOrder, x < idx)
    (hhead : ∀ x ∈ s.menuOrder.take (anchorPos s.menuOrder), x < 1000) :
    (syncLoopTrace ds idx s).map dynamicRegion =
      (List.range ds.length).map
        (fun k => (freshItems (ds.take (k + 1)) idx).reverse ++ dynamicRegion s) := by
  induction ds generalizing idx s with
  | nil => simp [syncLoopTrace]
  | cons d r ih =>
    have hlen : ((d :: r).length : Int) = r.length + 1 := by simp
    have hw : wrapInt32 (idx + 1) = idx + 1 := wrapInt32_succ idx hlo (by omega)
    have hnew : idx ∉ s.menuOrder := fun hm => absurd (hlt idx hm) (by omega)
    have hreg := dynamicRegion_addAfterHeader s idx (batteryProps d) hlo hnew hhead
    have hlt1 : ∀ x ∈ (addAfterHeader s idx (batteryProps d)).menuOrder, x < idx + 1 := by
      intro x hx
      rcases (mem_addAfterHeader s idx _ x).mp hx with e | e
      · omega
      · have := hlt x e
        omega
    simp only [syncLoopTrace, List.map_cons, List.length_cons]
    rw [hw, ih (idx + 1) _ (by omega) (by omega) hlt1
      (head_addAfterHeader s idx _ hlo hhead), hreg, List.range_succ_eq_map,
      List.map_cons, List.map_map]
    refine congrArg₂ List.cons ?_ ?_
    · simp [freshItems]
    · apply List.map_congr_left
      intro k _
      simp [freshItems]

theorem syncLoop_dynamicRegion (ds : List BatteryDetails) (idx : Int) (s : Store)
    (hlo : 1000 ≤ idx) (hhi : idx + ds.length < 2147483648)
    (hlt : ∀ x ∈ s.menuOrder, x < idx)
    (hhead : ∀ x ∈ s.menuOrder.take (anchorPos s.menuOrder), x < 1000) :
    dynamicRegion (syncLoop ds idx s) = (freshItems ds idx).reverse ++ dynamicRegion s := by
  induction ds generalizing idx s with
  | nil => simp [syncLoop, freshItems]
  | cons d r ih =>
    have hlen : ((d :: r).length : Int) = r.length + 1 := by simp
    have hw : wrapInt32 (idx + 1) = idx + 1 := wrapInt32_succ idx hlo (by omega)
    have hnew : idx ∉ s.menuOrder := fun hm => absurd (hlt idx hm) (by omega)
    have hreg := dynamicRegion_addAfterHeader s idx (batteryProps d) hlo hnew hhead
    have hlt1 : ∀ x ∈ (addAfterHeader s idx (batteryProps d)).menuOrder, x < idx + 1 := by
      intro x hx
      rcases (mem_addAfterHeader s idx _ x).mp hx with e | e
      · omega
      · have := hlt x e
        omega
    simp only [syncLoop]
    rw [hw, ih (idx + 1) _ (by omega) (by omega) hlt1
      (head_addAfterHeader s idx _ hlo hhead), hreg]
    simp [freshItems]

theorem dynamicRegion_clearBatteryItems (s : Store) :
    dynamicRegion (clearBatteryItems s) = [] := by
  unfold dynamicRegion
  have hf : (clearBatteryItems s).menuOrder.filter (fun x => decide (1000 ≤ x)) = [] := by
    rw [List.filter_eq_nil_iff]
    intro x hx
    have := clearBatteryItems_lt s x hx
    simp only [decide_eq_true_eq]
    omega
  rw [hf, List.map_nil]

theorem head_clearBatteryItems (s : Store) :
    ∀ x ∈ (clearBatteryItems s).menuOrder.take (anchorPos (clearBatteryItems s).menuOrder),
      x < 1000 :=
  fun x hx => clearBatteryItems_lt s x (List.mem_of_mem_take hx)

theorem syncTrace_dynamicRegion (s : Store) (response : Response)
    (hn : response.devices.length < 2147483648 - 1000) :
    (syncTrace s response).map dynamicRegion =
      dynamicRegion s :: (List.range (response.devices.length + 1)).map
        (fun k => (freshItems (response.devices.take k) 1000).reverse) := by
  unfold syncTrace
  rw [List.map_cons, List.map_cons,
    syncLoopTrace_dynamicRegion response.devices 1000 _ (by omega) (by omega)
      (clearBatteryItems_lt s) (head_clearBatteryItems s),
    dynamicRegion_clearBatteryItems, List.range_succ_eq_map, List.map_cons, List.map_map]
  refine congrArg₂ List.cons rfl (congrArg₂ List.cons ?_ ?_)
  · simp [freshItems]
  · apply List.map_congr_left
    intro k _
    simp

theorem mutations_cons (op : Op) (ops : List Op) :
    mutations (op :: ops) = (if op.isMutating then 1 else 0) + mutations ops := by
  unfold mutations
  by_cases h : op.isMutating = true
  · simp [List.filter_cons, h]; omega
  · simp [List.filter_cons, h]

theorem apply_revision (s : Store) (op : Op) :
    (op.apply s).menuRevision =
      if op.isMutating then (s.menuRevision + 1) % 4294967296 else s.menuRevision := by
  cases op <;> simp [Op.apply, Op.isMutating, addMenuItem, addAfterHeader, clearBatteryItems,
    incrUint32, GetLayout, Event]
  split <;> [rfl; (split <;> rfl)]

theorem runOps_revision (ops : List Op) (s : Store)
    (h : s.menuRevision + mutations ops < 4294967296) :
    (runOps s ops).menuRevision = s.menuRevision + mutations ops := by
  induction ops generalizing s with
  | nil => simp [runOps, mutations]
  | cons op rest ih =>
    rw [mutations_cons] at h
    have hstep := apply_revision s op
    have hrun : runOps s (op :: rest) = runOps (op.apply s) rest := by simp [runOps]
    rw [hrun, mutations_cons]
    by_cases hm : op.isMutating = true
    · simp only [hm, if_true] at hstep h
      have hmod : (s.menuRevision + 1) % 4294967296 = s.menuRevision + 1 :=
        Nat.mod_eq_of_lt (by omega)
      rw [hmod] at hstep
      rw [ih _ (by omega), hstep]
      simp [hm]; omega
    · simp only [hm] at hstep h
      simp only [Bool.false_eq_true, if_false] at hstep h
      rw [ih _ (by omega), hstep]
      simp [hm]

theorem mutations_take_le (ops : List Op) (k : Nat) :
    mutations (ops.take k) ≤ mutations (ops.take (k + 1)) ∧
      mutations (ops.take k) ≤ mutations ops := by
  unfold mutations
  constructor
  · have hsub : (ops.take k).Sublist (ops.take (k + 1)) := by
      have e : ops.take k = (ops.take (k + 1)).take k := by
        rw [List.take_take]; simp
      rw [e]
      exact List.take_sublist _ _
    exact (hsub.filter _).length_le
  · exact ((List.take_sublist k ops).filter _).length_le

/-! ## The claims -/

/-- C1 (tree consistency). The initial store is consistent; `addMenuItem` and
`clearBatteryItems` keep a store consistent, and so does `addAfterHeader` for an
identifier that is not in the tree yet; hence every store the program passes
through, the stores between the steps of a `SyncBatteryToMenu` included, is
consistent. -/
theorem tree_consistency :
    Consistent initStore ∧
    (∀ (s : Store) (id : Int) (props : PropMap),
      Consistent s → Consistent (addMenuItem s id props)) ∧
    (∀ s : Store, Consistent s → Consistent (clearBatteryItems s)) ∧
    (∀ (s : Store) (id : Int) (props : PropMap),
      Consistent s → id ∉ s.menuOrder → Consistent (addAfterHeader s id props)) ∧
    (∀ t : Store, Reachable t → Consistent t) :=
  ⟨consistent_initStore, consistent_addMenuItem, consistent_clearBatteryItems,
    consistent_addAfterHeader, consistent_reachable⟩

/-- C1 at a concrete run: the store after `Init` and one reconciliation of two
devices is reachable, hence consistent. -/
theorem tree_consistency_witness :
    Reachable (SyncBatteryToMenu startupStore (twoDevices "a" "b" "Mouse" "Headset")) ∧
    Consistent (SyncBatteryToMenu startupStore (twoDevices "a" "b" "Mouse" "Headset")) :=
  have hr : Reachable (SyncBatteryToMenu startupStore (twoDevices "a" "b" "Mouse" "Headset")) :=
    Reachable.syncing startupStore (twoDevices "a" "b" "Mouse" "Headset") _ Idle.started
      (by decide) (SyncBatteryToMenu_mem_trace _ _)
  ⟨hr, tree_consistency.2.2.2.2 _ hr⟩

/-- C2 as stated fails: from revision `4294967295` a mutating call leaves `0`, not
the previous value plus one, and the revision has decreased. -/
theorem revision_wraps_counterexample :
    lastRevisionStore.menuRevision = 4294967295 ∧
    (addMenuItem lastRevisionStore 1 []).menuRevision = 0 ∧
    (addMenuItem lastRevisionStore 1 []).menuRevision ≠ lastRevisionStore.menuRevision + 1 ∧
    (clearBatteryItems lastRevisionStore).menuRevision < lastRevisionStore.menuRevision := by
  decide

/-- C2 (amended). Each mutating call leaves `menuRevision` at the previous value plus
one modulo `2^32`, which is the previous value plus exactly one below `4294967295`;
`GetLayout` and `Event` leave the store as it is; and a sequence of calls that keeps
the counter below `2^32` ends at the old revision plus the number of mutating calls,
the revision never decreasing on the way. -/
theorem revision_step (s : Store) :
    (∀ (id : Int) (props : PropMap),
      (addMenuItem s id props).menuRevision = (s.menuRevision + 1) % 4294967296 ∧
      (addAfterHeader s id props).menuRevision = (s.menuRevision + 1) % 4294967296) ∧
    (clearBatteryItems s).menuRevision = (s.menuRevision + 1) % 4294967296 ∧
    (s.menuRevision < 4294967295 →
      (∀ (id : Int) (props : PropMap),
        (addMenuItem s id props).menuRevision = s.menuRevision + 1 ∧
        (addAfterHeader s id props).menuRevision = s.menuRevision + 1) ∧
      (clearBatteryItems s).menuRevision = s.menuRevision + 1) ∧
    (∀ (p d : Int) (names : List String),
      (GetLayout s p d names).1.menuRevision = s.menuRevision ∧
      (GetLayout s p d names).2.1 = s.menuRevision) ∧
    (∀ (addr : String) (err : Option String) (id : Int) (ev : String) (data : Variant)
      (ts : Nat), (Event addr err s id ev data ts).store.menuRevision = s.menuRevision) ∧
    (∀ ops : List Op, s.menuRevision + mutations ops < 4294967296 →
      (runOps s ops).menuRevision = s.menuRevision + mutations ops ∧
      ∀ k : Nat, (runOps s (ops.take k)).menuRevision ≤
        (runOps s (ops.take (k + 1))).menuRevision) := by
  refine ⟨fun id props => ⟨rfl, rfl⟩, rfl, ?_, fun p d names => ⟨rfl, rfl⟩, ?_, ?_⟩
  · intro h
    have hmod : (s.menuRevision + 1) % 4294967296 = s.menuRevision + 1 :=
      Nat.mod_eq_of_lt (by omega)
    exact ⟨fun id props => ⟨hmod, hmod⟩, hmod⟩
  · intro addr err id ev data ts
    unfold Event
    split
    · rfl
    · split <;> rfl
  · intro ops h
    refine ⟨runOps_revision ops s h, fun k => ?_⟩
    have hk := mutations_take_le ops k
    have hk1 := (mutations_take_le ops (k + 1)).2
    rw [runOps_revision _ s (by omega), runOps_revision _ s (by omega)]
    omega

/-- C2 (amended) at a concrete run: from the store after `Init`, a clear, a read and
an insertion raise the revision from `7` to `9`. -/
theorem revision_step_witness :
    (runOps startupStore [Op.clearBatteryItems, Op.getLayout 0 (-1) [],
      Op.addAfterHeader 1000 []]).menuRevision = 7 + 2 :=
  ((revision_step startupStore).2.2.2.2.2
    [Op.clearBatteryItems, Op.getLayout 0 (-1) [], Op.addAfterHeader 1000 []]
    (by decide)).1

/-- C3 as stated fails: the devices end up newest first, `1001` before `1000`. -/
theorem scenario2_counterexample :
    ¬ ((SyncBatteryToMenu startupStore (twoDevices "a" "b" "Mouse" "Headset")).menuOrder
          = [1, 2, 1000, 1001, 100, 101, 102, 103] ∧
        ((SyncBatteryToMenu startupStore (twoDevices "a" "b" "Mouse" "Headset")).menuItems
          1000).bind (fun it => it.Props.get "icon-name") = some (.str "input-mouse") ∧
        ((SyncBatteryToMenu startupStore (twoDevices "a" "b" "Mouse" "Headset")).menuItems
          1001).bind (fun it => it.Props.get "icon-name") = some (.str "audio-headset")) := by
  decide

/-- C3 (amended). From the store after `Init`, reconciling a snapshot that yields a
device of level 80 and type 1 and then a device of level 45 and type 2 gives
`menuOrder = [1,2,1001,1000,100,101,102,103]`; item `1000` has icon-name
"input-mouse" and item `1001` has icon-name "audio-headset". -/
theorem scenario2 (response : Response) (n1 n2 : String)
    (h : response.devices = [⟨n1, 80, 1⟩, ⟨n2, 45, 2⟩]) :
    (SyncBatteryToMenu startupStore response).menuOrder
      = [1, 2, 1001, 1000, 100, 101, 102, 103] ∧
    ((SyncBatteryToMenu startupStore response).menuItems 1000).bind
      (fun it => it.Props.get "icon-name") = some (.str "input-mouse") ∧
    ((SyncBatteryToMenu startupStore response).menuItems 1001).bind
      (fun it => it.Props.get "icon-name") = some (.str "audio-headset") := by
  unfold SyncBatteryToMenu
  rw [h]
  exact ⟨rfl, rfl, rfl⟩

/-- C3 (amended) at a concrete snapshot. -/
theorem scenario2_witness :
    (SyncBatteryToMenu startupStore (twoDevices "a" "b" "Mouse" "Headset")).menuOrder
      = [1, 2, 1001, 1000, 100, 101, 102, 103] :=
  (scenario2 (twoDevices "a" "b" "Mouse" "Headset") "Mouse" "Headset" rfl).1

/-- C5 (clearing the dynamic range, third scenario). For every consistent store, which
every store the program passes through is, `clearBatteryItems` and `SyncBatteryToMenu`
on a snapshot without devices leave `menuOrder` filtered to the identifiers below
`1000`, in their old order, and `menuItems` equal to the old map restricted to the
keys below `1000`, the entries below `1000` untouched. After the second scenario the
order is again `[1,2,100,101,102,103]` and the keys `1000` and `1001` are gone. -/
theorem clear_dynamic_range (s : Store) (hc : Consistent s) :
    (clearBatteryItems s).menuOrder = s.menuOrder.filter (fun id => decide (id < 1000)) ∧
    (clearBatteryItems s).menuItems =
      (fun k => if k < 1000 then s.menuItems k else none) ∧
    (∀ k : Int, k < 1000 → (clearBatteryItems s).menuItems k = s.menuItems k) ∧
    (∀ response : Response, response.devices = [] →
      (SyncBatteryToMenu s response).menuOrder =
        s.menuOrder.filter (fun id => decide (id < 1000)) ∧
      (SyncBatteryToMenu s response).menuItems =
        (fun k => if k < 1000 then s.menuItems k else none)) ∧
    (∀ (r2 r3 : Response) (n1 n2 : String),
      r2.devices = [⟨n1, 80, 1⟩, ⟨n2, 45, 2⟩] → r3.devices = [] →
      (SyncBatteryToMenu (SyncBatteryToMenu startupStore r2) r3).menuOrder
        = [1, 2, 100, 101, 102, 103] ∧
      (SyncBatteryToMenu (SyncBatteryToMenu startupStore r2) r3).menuItems 1000 = none ∧
      (SyncBatteryToMenu (SyncBatteryToMenu startupStore r2) r3).menuItems 1001 = none) := by
  have hitems : (clearBatteryItems s).menuItems =
      (fun k => if k < 1000 then s.menuItems k else none) := by
    funext k
    rw [clearBatteryItems_menuItems]
    by_cases hk : k < 1000
    · have : ¬ (1000 : Int) ≤ k := by omega
      simp [hk, this]
    · have hge : (1000 : Int) ≤ k := by omega
      by_cases hm : k ∈ s.menuOrder
      · simp [hk, hge, hm]
      · have hnone : s.menuItems k = none := by
          cases hv : s.menuItems k with
          | none => rfl
          | some v => exact absurd ((hc.2.1 k).mpr (by simp [hv])) hm
        simp [hk, hm, hnone]
  refine ⟨clearBatteryItems_menuOrder s, hitems, ?_, ?_, ?_⟩
  · intro k hk
    rw [hitems]
    simp [hk]
  · intro response h
    unfold SyncBatteryToMenu
    rw [h]
    exact ⟨clearBatteryItems_menuOrder s, hitems⟩
  · intro r2 r3 n1 n2 h2 h3
    unfold SyncBatteryToMenu
    rw [h2, h3]
    exact ⟨rfl, rfl, rfl⟩

/-- C5 at the store left by the second scenario, which is reachable and so
consistent: clearing restricts its map to the keys below `1000`. -/
theorem clear_dynamic_range_witness :
    (clearBatteryItems
      (SyncBatteryToMenu startupStore (twoDevices "a" "b" "Mouse" "Headset"))).menuItems =
      (fun k => if k < 1000 then
        (SyncBatteryToMenu startupStore (twoDevices "a" "b" "Mouse" "Headset")).menuItems k
        else none) :=
  (clear_dynamic_range
    (SyncBatteryToMenu startupStore (twoDevices "a" "b" "Mouse" "Headset"))
    (consistent_reachable _
      (Reachable.syncing startupStore (twoDevices "a" "b" "Mouse" "Headset") _ Idle.started
        (by decide) (SyncBatteryToMenu_mem_trace _ _)))).2.1

/-- C4 (insert-after-anchor position). The loop of `addAfterHeader` finds one past
the first occurrence of `2`, or `0` when there is none, and the new order is the
old one with `id` spliced in at that position: one entry longer, the old order
once that entry is erased. When `2` is present the new item directly follows the
first `2`, and a further insertion lands between that `2` and the item inserted
before. -/
theorem addAfterHeader_position (s : Store) (id : Int) (props : PropMap) :
    findPos 2 s.menuOrder 0 = anchorPos s.menuOrder ∧
    (addAfterHeader s id props).menuOrder =
      s.menuOrder.take (anchorPos s.menuOrder) ++ [id] ++
        s.menuOrder.drop (anchorPos s.menuOrder) ∧
    (addAfterHeader s id props).menuOrder.length = s.menuOrder.length + 1 ∧
    (addAfterHeader s id props).menuOrder.eraseIdx (anchorPos s.menuOrder) = s.menuOrder ∧
    (addAfterHeader s id props).menuOrder[anchorPos s.menuOrder]? = some id ∧
    ((2 : Int) ∈ s.menuOrder →
      (addAfterHeader s id props).menuOrder[anchorPos s.menuOrder - 1]? = some 2 ∧
      (∀ j, j < anchorPos s.menuOrder - 1 →
        (addAfterHeader s id props).menuOrder[j]? ≠ some 2) ∧
      ∀ (id2 : Int) (props2 : PropMap),
        (addAfterHeader (addAfterHeader s id props) id2 props2).menuOrder =
          s.menuOrder.take (anchorPos s.menuOrder) ++ [id2, id] ++
            s.menuOrder.drop (anchorPos s.menuOrder)) := by
  have hle := anchorPos_le_length s.menuOrder
  refine ⟨findPos_eq_anchorPos _, ?_, ?_, ?_, ?_, ?_⟩
  · rw [addAfterHeader_menuOrder]; simp
  · rw [addAfterHeader_menuOrder]; exact splice_length _ _ _
  · rw [addAfterHeader_menuOrder]; exact splice_eraseIdx _ _ _ hle
  · rw [addAfterHeader_menuOrder]; exact splice_getElem_at _ _ _ hle
  · intro h2
    have hp : anchorPos s.menuOrder = s.menuOrder.indexOf 2 + 1 := by simp [anchorPos, h2]
    refine ⟨?_, ?_, ?_⟩
    · rw [addAfterHeader_menuOrder, splice_getElem_before _ _ _ _ hle (by omega), hp]
      exact getElem_indexOf 2 _ h2
    · intro j hj
      rw [addAfterHeader_menuOrder, splice_getElem_before _ _ _ _ hle (by omega)]
      exact getElem_before_indexOf 2 _ j (by omega)
    · intro id2 props2
      rw [addAfterHeader_menuOrder, addAfterHeader_menuOrder, anchorPos_insert _ _ h2,
        take_anchorPos_insert, drop_anchorPos_insert]
      simp

/-- C4 at the store after `Init`: two insertions give `[1,2,1001,1000,100,...]`. -/
theorem addAfterHeader_position_witness :
    (addAfterHeader (addAfterHeader startupStore 1000 []) 1001 []).menuOrder =
      [1, 2] ++ [1001, 1000] ++ [100, 101, 102, 103] :=
  ((addAfterHeader_position startupStore 1000 []).2.2.2.2.2 (by decide)).2.2 1001 []

/-- C7 as stated fails: the revision after the six insertions is not `6`. -/
theorem scenario1_counterexample :
    ¬ (startupStore.menuOrder = [1, 2, 100, 101, 102, 103] ∧
        (GetLayout startupStore 0 (-1) []).2.1 = 6) := by
  decide

/-- C7 (amended). From the initial store, whose revision is `1`, `addMenuItem` for
`1, 2, 100, 101, 102, 103` in that order, with any properties, gives
`menuOrder = [1,2,100,101,102,103]` and a revision, as `GetLayout` returns it, of
`7`; `Init` is such a run. -/
theorem scenario1 (p1 p2 p3 p4 p5 p6 : PropMap) :
    initStore.menuRevision = 1 ∧ initStore.menuOrder = [] ∧
    (addAll [(1, p1), (2, p2), (100, p3), (101, p4), (102, p5), (103, p6)]
      initStore).menuOrder = [1, 2, 100, 101, 102, 103] ∧
    (∀ (p d : Int) (names : List String),
      (GetLayout (addAll [(1, p1), (2, p2), (100, p3), (101, p4), (102, p5), (103, p6)]
        initStore) p d names).2.1 = 7) ∧
    staticItems.map Prod.fst = [1, 2, 100, 101, 102, 103] :=
  ⟨rfl, rfl, rfl, fun _ _ _ => rfl, rfl⟩

/-- C8 as stated fails: the result of `AboutToShow` is `true`. -/
theorem aboutToShow_counterexample : (AboutToShow 0).1 ≠ false := by
  decide

/-- C8 (amended). For every `parentId`, `AboutToShow` succeeds (nil error) and its
`needsUpdate` result is `true`. -/
theorem aboutToShow_result (parentId : Int) :
    (AboutToShow parentId).2 = none ∧ (AboutToShow parentId).1 = true :=
  ⟨rfl, rfl⟩

/-- C9 as stated fails: for the quit identifier `103` the call does not return a nil
error, because `os.Exit(0)` ends the process inside the call. -/
theorem event_quit_counterexample :
    (Event "127.0.0.1:27003" none startupStore 103 "clicked" (.str "") 0).returned
      ≠ some none := by
  simp [Event]

/-- C9 (amended). `Event` never changes the store. It ends the process, with status
`0` and without returning, exactly for `id = 103`; for every other `id` it returns
the nil error. It starts `xdg-open` on "http://" followed by the backend address
exactly for `id = 101`, and for every `id` other than `101` and `103` it has no
effect at all. -/
theorem event_dispatch (addr : String) (err : Option String) (s : Store) (id : Int)
    (ev : String) (data : Variant) (ts : Nat) :
    (Event addr err s id ev data ts).store = s ∧
    ((Event addr err s id ev data ts).returned = none ↔ id = 103) ∧
    ((Event addr err s id ev data ts).returned = some none ↔ id ≠ 103) ∧
    (∀ c : Int, Effect.osExit c ∈ (Event addr err s id ev data ts).effects ↔
      (id = 103 ∧ c = 0)) ∧
    (∀ url : String, Effect.startXdgOpen url ∈ (Event addr err s id ev data ts).effects ↔
      (id = 101 ∧ url = "http://" ++ addr)) ∧
    (id ≠ 101 → id ≠ 103 → (Event addr err s id ev data ts).effects = []) := by
  unfold Event
  by_cases h1 : id = 101
  · subst h1
    cases err <;> simp
  · by_cases h3 : id = 103
    · subst h3
      simp
    · simp [h1, h3]

/-- C6 as stated fails: during a reconciliation of the store left by the second
scenario, the store after `clearBatteryItems` can be read by `GetLayout`, and its
dynamic region is empty: neither the old region nor the new one. -/
theorem sync_not_atomic_counterexample :
    clearBatteryItems (SyncBatteryToMenu startupStore (twoDevices "a" "b" "Mouse" "Headset"))
      ∈ syncTrace (SyncBatteryToMenu startupStore (twoDevices "a" "b" "Mouse" "Headset"))
          (twoDevices "a" "b" "Mouse" "Headset") ∧
    ¬ (dynamicRegion (clearBatteryItems
          (SyncBatteryToMenu startupStore (twoDevices "a" "b" "Mouse" "Headset"))) =
        dynamicRegion (SyncBatteryToMenu startupStore (twoDevices "a" "b" "Mouse" "Headset")) ∨
      dynamicRegion (clearBatteryItems
          (SyncBatteryToMenu startupStore (twoDevices "a" "b" "Mouse" "Headset"))) =
        dynamicRegion (SyncBatteryToMenu
          (SyncBatteryToMenu startupStore (twoDevices "a" "b" "Mouse" "Headset"))
          (twoDevices "a" "b" "Mouse" "Headset"))) :=
  ⟨List.mem_cons_of_mem _ (List.mem_cons_self _ _), by decide⟩

/-- C6 (amended). The stores that `GetLayout` can read during one `SyncBatteryToMenu`
are, in order: the store before it, with the old dynamic region, and then, for
`k = 0, 1, ..., n`, a store whose dynamic region consists of the items of the first
`k` devices, newest first. The last of them is the result of the call and carries
the complete new region; the ones before it are empty or partly filled. `GetLayout`
itself leaves the store unchanged. -/
theorem sync_observable_regions (s : Store) (response : Response)
    (hn : response.devices.length < 2147483648 - 1000) :
    (syncTrace s response).map dynamicRegion =
      dynamicRegion s :: (List.range (response.devices.length + 1)).map
        (fun k => (freshItems (response.devices.take k) 1000).reverse) ∧
    (syncTrace s response).getLast? = some (SyncBatteryToMenu s response) ∧
    dynamicRegion (SyncBatteryToMenu s response) =
      (freshItems response.devices 1000).reverse ∧
    (∀ t ∈ syncTrace s response, dynamicRegion t = dynamicRegion s ∨
      ∃ k, k ≤ response.devices.length ∧
        dynamicRegion t = (freshItems (response.devices.take k) 1000).reverse) ∧
    (∀ (t : Store) (p d : Int) (names : List String),
      (GetLayout t p d names).1.menuOrder = t.menuOrder ∧
      (GetLayout t p d names).1.menuItems = t.menuItems ∧
      (GetLayout t p d names).1.menuRevision = t.menuRevision) := by
  have hmap := syncTrace_dynamicRegion s response hn
  refine ⟨hmap, ?_, ?_, ?_, fun t p d names => ⟨rfl, rfl, rfl⟩⟩
  · unfold syncTrace SyncBatteryToMenu
    rw [List.getLast?_cons_cons]
    exact getLast_syncLoopTrace _ _ _
  · unfold SyncBatteryToMenu
    rw [syncLoop_dynamicRegion response.devices 1000 _ (by omega) (by omega)
      (clearBatteryItems_lt s) (head_clearBatteryItems s), dynamicRegion_clearBatteryItems]
    simp
  · intro t ht
    have hmem : dynamicRegion t ∈ (syncTrace s response).map dynamicRegion :=
      List.mem_map_of_mem _ ht
    rw [hmap] at hmem
    rcases List.mem_cons.mp hmem with h | h
    · exact Or.inl h
    · obtain ⟨k, hk, hk2⟩ := List.mem_map.mp h
      exact Or.inr ⟨k, by have := List.mem_range.mp hk; omega, hk2.symm⟩

/-- C6 (amended) at a concrete run: re-reconciling the store left by the second
scenario passes through an empty and a one-item dynamic region. -/
theorem sync_observable_regions_witness :
    (syncTrace (SyncBatteryToMenu startupStore (twoDevices "a" "b" "Mouse" "Headset"))
      (twoDevices "c" "d" "Keys" "Pad")).map dynamicRegion =
      dynamicRegion (SyncBatteryToMenu startupStore (twoDevices "a" "b" "Mouse" "Headset")) ::
        (List.range 3).map
          (fun k => (freshItems ((twoDevices "c" "d" "Keys" "Pad").devices.take k) 1000).reverse) :=
  (sync_observable_regions
    (SyncBatteryToMenu startupStore (twoDevices "a" "b" "Mouse" "Headset"))
    (twoDevices "c" "d" "Keys" "Pad") (by decide)).1

/-- C10 (reconciled dynamic content). For every consistent store, which every store
the program passes through is, and every snapshot of `n < 2^31 - 1000` devices, after
`SyncBatteryToMenu` the keys from `1000` on of `menuItems` are exactly
`1000, ..., 1000 + n - 1`, whatever dynamic entries there were before, and the item
at `1000 + i` has that `ID`, the label "[<Level> %] <Device>" of device `i`, type
"normal" and the icon-name of the table `0 ↦ input-keyboard`, `1 ↦ input-mouse`,
`2 ↦ audio-headset`, anything else `↦ battery-good` (four distinct names). -/
theorem sync_dynamic_content (s : Store) (response : Response) (hc : Consistent s)
    (hn : response.devices.length < 2147483648 - 1000) :
    (∀ k : Int, 1000 ≤ k →
      (((SyncBatteryToMenu s response).menuItems k).isSome = true ↔
        k < 1000 + response.devices.length)) ∧
    (∀ (i : Nat) (hi : i < response.devices.length),
      ∃ item, (SyncBatteryToMenu s response).menuItems (1000 + i) = some item ∧
        item.ID = 1000 + i ∧
        item.Props.get "label" = some (.str ("[" ++ toString (response.devices[i]).Level
          ++ " %] " ++ (response.devices[i]).Device)) ∧
        item.Props.get "type" = some (.str "normal") ∧
        item.Props.get "icon-name" =
          some (.str (iconForType (response.devices[i]).DeviceType))) ∧
    iconForType 0 = "input-keyboard" ∧ iconForType 1 = "input-mouse" ∧
    iconForType 2 = "audio-headset" ∧
    (∀ t : Int, t ≠ 0 → t ≠ 1 → t ≠ 2 → iconForType t = "battery-good") ∧
    ["input-keyboard", "input-mouse", "audio-headset", "battery-good"].Nodup := by
  refine ⟨?_, ?_, rfl, rfl, rfl, ?_, by decide⟩
  · intro k hk
    constructor
    · intro hsome
      by_contra hge
      have hout := syncLoop_menuItems_outside response.devices 1000 (clearBatteryItems s)
        (by omega) (by omega) k (Or.inr (by omega))
      unfold SyncBatteryToMenu at hsome
      rw [hout, clearBatteryItems_menuItems] at hsome
      by_cases hm : k ∈ s.menuOrder
      · simp [hm, hk] at hsome
      · simp only [hm, false_and, if_false] at hsome
        exact hm ((hc.2.1 k).mpr hsome)
    · intro hlt
      have hi : (k - 1000).toNat < response.devices.length := by omega
      have hat := syncLoop_menuItems_at response.devices 1000 (clearBatteryItems s)
        (by omega) (by omega) (k - 1000).toNat hi
      have e : (1000 : Int) + ((k - 1000).toNat : Int) = k := by omega
      rw [e] at hat
      unfold SyncBatteryToMenu
      rw [hat]
      rfl
  · intro i hi
    refine ⟨_, syncLoop_menuItems_at response.devices 1000 _ (by omega) (by omega) i hi,
      rfl, rfl, rfl, rfl⟩
  · intro t h0 h1 h2
    simp [iconForType, h0, h1, h2]

/-- C10 at the store left by the second scenario, which holds the dynamic keys `1000`
and `1001`, and a one-device snapshot: afterwards key `1000` is present and key
`1001` is not. -/
theorem sync_dynamic_content_witness :
    ((SyncBatteryToMenu (SyncBatteryToMenu startupStore (twoDevices "a" "b" "Mouse" "Headset"))
        ⟨200, 1, ⟨"", "", [("k", ⟨"Keys", 30, 0⟩)]⟩⟩).menuItems 1000).isSome = true ∧
    ¬ ((SyncBatteryToMenu (SyncBatteryToMenu startupStore (twoDevices "a" "b" "Mouse" "Headset"))
        ⟨200, 1, ⟨"", "", [("k", ⟨"Keys", 30, 0⟩)]⟩⟩).menuItems 1001).isSome = true :=
  have h := (sync_dynamic_content
    (SyncBatteryToMenu startupStore (twoDevices "a" "b" "Mouse" "Headset"))
    ⟨200, 1, ⟨"", "", [("k", ⟨"Keys", 30, 0⟩)]⟩⟩
    (consistent_reachable _
      (Reachable.syncing startupStore (twoDevices "a" "b" "Mouse" "Headset") _ Idle.started
        (by decide) (SyncBatteryToMenu_mem_trace _ _)))
    (by decide)).1
  ⟨(h 1000 (by decide)).mpr (by decide), fun hs => absurd ((h 1001 (by decide)).mp hs) (by decide)⟩

end Systray
